import Mathlib

/-!
Shallow embedding of `intracursus_import/import_scores.py`.

Spreadsheet cells (`str | float | int` in the source) are modelled by the
inductive type `Cell`; Python floats carry no arithmetic in this program
(scores are only copied and compared), so a float cell is modelled by a
rational payload.  Python sets of strings are modelled by `Finset String`.
Python functions that can raise are modelled in `Except PyError`.
-/

/-- A spreadsheet cell: the source's `str | float | int`. -/
inductive Cell where
  | str (s : String)
  | int (n : Int)
  | float (q : ℚ)
deriving DecidableEq, Repr

/-- Default cell used for total list indexing (`List.getD`); only ever read
at indices the source guarantees to be in range. -/
def c0 : Cell := Cell.str ""

/-- Python `==` between cells: numeric cells compare by value across
`int`/`float`, strings compare to strings, and mixed string/number is `False`. -/
def cellEq : Cell → Cell → Bool
  | Cell.str a, Cell.str b => a = b
  | Cell.int a, Cell.int b => a = b
  | Cell.float a, Cell.float b => a = b
  | Cell.int a, Cell.float b => (a : ℚ) = b
  | Cell.float a, Cell.int b => a = (b : ℚ)
  | _, _ => false

/-- Python `str(...)` / f-string interpolation of a cell. -/
def cellStr : Cell → String
  | Cell.str s => s
  | Cell.int n => toString n
  | Cell.float q => toString q

/-- `isinstance(val, str)`. -/
def cellIsStr : Cell → Bool
  | Cell.str _ => true
  | _ => false

/-- `isinstance(val, (float, int))`. -/
def cellIsNum : Cell → Bool
  | Cell.int _ => true
  | Cell.float _ => true
  | _ => false

/-- `isinstance(val, int) and val > 1_000_000` (identifier-column test). -/
def cellIsBigInt : Cell → Bool
  | Cell.int n => 1000000 < n
  | _ => false

/-- Integer payload of a cell known to be an int (identifier columns). -/
def cellIntVal : Cell → Int
  | Cell.int n => n
  | _ => 0

/-- `str(val).strip()` is non-empty: any numeric cell prints non-blank, a
string cell must contain a non-whitespace character (equivalent to
`str(val).strip() != ""`). -/
def cellNonBlank : Cell → Bool
  | Cell.str s => s.data.any (fun c => !c.isWhitespace)
  | _ => true

/-- `isinstance(score, str) and score.startswith("#")`. -/
def cellStartsHash : Cell → Bool
  | Cell.str s =>
    match s.data with
    | c :: _ => c == '#'
    | [] => false
  | _ => false

/-- A sheet: `list[list[str | float | int]]`. -/
def SheetData := List (List Cell)

/-- The uppercase-to-lowercase folding performed by Python `str.casefold`,
restricted to the character repertoire this program handles: ASCII letters
plus the uppercase forms of the accented characters in `CONVERSION`. -/
def CASEFOLD_TABLE : List (Char × Char) :=
  [('A', 'a'), ('B', 'b'), ('C', 'c'), ('D', 'd'), ('E', 'e'), ('F', 'f'),
   ('G', 'g'), ('H', 'h'), ('I', 'i'), ('J', 'j'), ('K', 'k'), ('L', 'l'),
   ('M', 'm'), ('N', 'n'), ('O', 'o'), ('P', 'p'), ('Q', 'q'), ('R', 'r'),
   ('S', 's'), ('T', 't'), ('U', 'u'), ('V', 'v'), ('W', 'w'), ('X', 'x'),
   ('Y', 'y'), ('Z', 'z'),
   ('É', 'é'), ('È', 'è'), ('Ê', 'ê'), ('Ë', 'ë'), ('À', 'à'), ('Â', 'â'),
   ('Ô', 'ô'), ('Ö', 'ö'), ('Ù', 'ù'), ('Û', 'û'), ('Ü', 'ü'), ('Î', 'î'),
   ('Ï', 'ï'), ('Ç', 'ç'), ('Ñ', 'ñ')]

/-- The source's `CONVERSION` table (built with `str.maketrans`): accented
lowercase characters to their unaccented equivalents, hyphen and underscore
to a space. -/
def CONVERSION_TABLE : List (Char × Char) :=
  [('é', 'e'), ('è', 'e'), ('ê', 'e'), ('ë', 'e'), ('à', 'a'), ('â', 'a'),
   ('ô', 'o'), ('ö', 'o'), ('ù', 'u'), ('û', 'u'), ('ü', 'u'), ('î', 'i'),
   ('ï', 'i'), ('ç', 'c'), ('ñ', 'n'), ('-', ' '), ('_', ' ')]

/-- One character of `name.casefold()`. -/
def pyCasefold (c : Char) : Char :=
  match CASEFOLD_TABLE.find? (fun p => p.1 == c) with
  | some p => p.2
  | none => c

/-- One character of `name.translate(TABLE)`. -/
def translateChar (c : Char) : Char :=
  match CONVERSION_TABLE.find? (fun p => p.1 == c) with
  | some p => p.2
  | none => c

/-- Composite per-character map applied by `norm` before splitting. -/
def gChar (c : Char) : Char := translateChar (pyCasefold c)

/-- Helper for Python `str.split()` (split on whitespace runs, no empty
tokens); `acc` is the word currently being read, in order. -/
def splitWsAux : List Char → List Char → List String
  | [], acc => if acc = [] then [] else [String.mk acc]
  | c :: rest, acc =>
    if c.isWhitespace then
      if acc = [] then splitWsAux rest [] else String.mk acc :: splitWsAux rest []
    else splitWsAux rest (acc ++ [c])

/-- Python `str.split()` on a character list. -/
def splitWs (cs : List Char) : List String := splitWsAux cs []

/-- The token list underlying `norm` (before Python's `set(...)`). -/
def normTokens (name : String) : List String :=
  splitWs (name.data.map gChar)

/-- `norm(name)`: case-fold, strip accents, split on whitespace into a set. -/
def norm (name : String) : Finset String :=
  (normTokens name).toFinset

/-- `match(name1, name2)`: equality of normalized token sets. -/
def match' (name1 name2 : String) : Bool :=
  norm name1 = norm name2

/-- `contain(name1, name2)`: one normalized token set included in the other. -/
def contain (name1 name2 : String) : Bool :=
  norm name1 ⊆ norm name2 || norm name2 ⊆ norm name1

/-- `partial_match(name1, name2)`: the normalized token sets share at least
one word of length at least 3. -/
def partialMatch (name1 name2 : String) : Bool :=
  1 ≤ ((norm name1 ∩ norm name2).filter (fun w => 3 ≤ w.length)).card

/-- The errors the embedded pipeline can raise, one constructor per Python
exception kind reachable from the embedded functions. -/
inductive PyError where
  | nothingToMerge
  | duplicateNames (name : String) (count : Nat)
  | unknownName (name : String)
  | assertionError
  | keyError
  | valueError
  | typeError
deriving DecidableEq, Repr

/-- Equality of `Except` values is decidable when it is on both sides. -/
instance {ε α : Type} [DecidableEq ε] [DecidableEq α] : DecidableEq (Except ε α) := by
  intro x y
  cases x <;> cases y
  case error.error a b =>
    exact if h : a = b then Decidable.isTrue (by rw [h])
      else Decidable.isFalse (by intro hc; injection hc; exact h (by assumption))
  case ok.ok a b =>
    exact if h : a = b then Decidable.isTrue (by rw [h])
      else Decidable.isFalse (by intro hc; injection hc; exact h (by assumption))
  case error.ok a b => exact Decidable.isFalse (by intro hc; exact Except.noConfusion hc)
  case ok.error a b => exact Decidable.isFalse (by intro hc; exact Except.noConfusion hc)

/-- The mutable state of the matching loop: the dicts `found` and
`to_be_verified`, as association lists in insertion order (the assertion in
the source keeps the keys of `found` distinct, matching dict semantics). -/
abbrev PassState := List (String × String) × List (String × String)

/-- The inner loop of one matching pass, for a fixed secondary name `other`:
for each remaining canonical name `intra`, if the predicate holds, assert
that `intra` is not yet a key of `found` (else `AssertionError`) and record
`found[intra] = other`; on the third pass (`isPart`) also record the entry in
`to_be_verified`. -/
def passInner (pred : String → String → Bool) (isPart : Bool) (other : String) :
    List String → PassState → Except PyError PassState
  | [], st => Except.ok st
  | intra :: rest, st =>
    if pred other intra then
      if st.1.any (fun p => p.1 == intra) then Except.error PyError.assertionError
      else
        passInner pred isPart other rest
          (st.1 ++ [(intra, other)], if isPart then st.2 ++ [(intra, other)] else st.2)
    else passInner pred isPart other rest st

/-- One full matching pass: the nested `for other in others: for intra in
intracursus:` loop of `translate_names`. -/
def passOuter (pred : String → String → Bool) (isPart : Bool) :
    List String → List String → PassState → Except PyError PassState
  | [], _, st => Except.ok st
  | o :: os, intras, st =>
    match passInner pred isPart o intras st with
    | Except.error e => Except.error e
    | Except.ok st' => passOuter pred isPart os intras st'

/-- `others -= set(found.values())` after a pass. -/
def remOthers (found : List (String × String)) (others : List String) : List String :=
  others.filter (fun o => !(found.any (fun p => p.2 == o)))

/-- `intracursus -= set(found)` after a pass. -/
def remIntras (found : List (String × String)) (intras : List String) : List String :=
  intras.filter (fun i => !(found.any (fun p => p.1 == i)))

/-- The three sequential matching passes of `translate_names` (exact, subset,
partial), with the pool subtractions performed between passes; returns the
final state together with the secondary names still unmatched at the end. -/
def runPasses (others intras : List String) :
    Except PyError (PassState × List String) :=
  match passOuter match' false others intras ([], []) with
  | Except.error e => Except.error e
  | Except.ok st1 =>
    match
      passOuter contain false (remOthers st1.1 others) (remIntras st1.1 intras) st1 with
    | Except.error e => Except.error e
    | Except.ok st2 =>
      match
        passOuter partialMatch true (remOthers st2.1 (remOthers st1.1 others))
          (remIntras st2.1 (remIntras st1.1 intras)) st2 with
      | Except.error e => Except.error e
      | Except.ok st3 =>
        Except.ok (st3, remOthers st3.1 (remOthers st2.1 (remOthers st1.1 others)))

/-- The matching stage of `translate_names`, entered once duplicate
detection has passed: run the three passes, then raise `UnknownNameError`
for the first secondary name still unmatched, if any. -/
def resolve (others intras : List String) :
    Except PyError (List (String × String) × List (String × String)) :=
  match runPasses others intras with
  | Except.error e => Except.error e
  | Except.ok (st, rem) =>
    match rem with
    | n :: _ => Except.error (PyError.unknownName n)
    | [] => Except.ok st

/-- `translate_names(other_names, intracursus_names)`.  The source detects a
duplicate by comparing `len(set(other_names))` with `len(other_names)` and
then extracts the first `Counter` entry with count above 1; this is embedded
directly as a search for the first element whose occurrence count in the raw
list exceeds 1 (the two are equivalent, and the reported name and count
agree since `Counter` iterates keys in first-occurrence order).  Python's
unordered sets are modelled by deduplicated lists. -/
def translate_names (other_names intracursus_names : List String) :
    Except PyError (List (String × String) × List (String × String)) :=
  match other_names.find? (fun n => 1 < other_names.count n) with
  | some name => Except.error (PyError.duplicateNames name (other_names.count name))
  | none => resolve other_names.dedup intracursus_names.dedup

/-- The canonical (Intracursus) dataset. -/
structure IntracursusData where
  ids : List Cell
  names : List String
  scores : List Cell
deriving DecidableEq, Repr

/-- The secondary dataset. -/
structure OtherData where
  ids : List Int
  names : List String
  scores : List Cell
deriving DecidableEq, Repr

/-- Python `list(zip(*rows))`: transpose truncated to the shortest row. -/
def zipStar (rows : List (List Cell)) : List (List Cell) :=
  match rows with
  | [] => []
  | r :: rs =>
    (List.range (rs.foldl (fun m row => min m row.length) r.length)).map
      (fun j => (r :: rs).map (fun row => row.getD j c0))

/-- `find_first_data_row(other_sheet)`: index of the first non-blank row,
plus one if that row is entirely textual (a headers row); `NothingToMergeError`
when every row is blank. -/
def find_first_data_row (other_sheet : List (List Cell)) : Except PyError Nat :=
  match other_sheet.findIdx? (fun row => row.any cellNonBlank) with
  | none => Except.error PyError.nothingToMerge
  | some i =>
    if (other_sheet.getD i []).all cellIsStr then Except.ok (i + 1) else Except.ok i

/-- The column-classification loop of `get_other_data`: an all-big-int
column is the identifier column, an all-text column is a name-fragment
column, any other column containing a number is the score column; a later
qualifying column overwrites an earlier one, as in the source's loop. -/
def classifyColumns (columns : List (List Cell)) :
    List Int × List (List Cell) × List Cell :=
  columns.foldl
    (fun acc column =>
      if column.all cellIsBigInt then (column.map cellIntVal, acc.2.1, acc.2.2)
      else if column.all cellIsStr then (acc.1, acc.2.1 ++ [column], acc.2.2)
      else if column.any cellIsNum then (acc.1, acc.2.1, column)
      else acc)
    ([], [], [])

/-- `" ".join(vals)` (single spaces between fragments). -/
def joinWords : List String → List Char
  | [] => []
  | [t] => t.data
  | t :: rest => t.data ++ ' ' :: joinWords rest

/-- `" ".join(vals)` as a string. -/
def joinSpace (l : List String) : String := String.mk (joinWords l)

/-- `get_other_data(other_sheet)`. -/
def get_other_data (other_sheet : List (List Cell)) : Except PyError OtherData :=
  match find_first_data_row other_sheet with
  | Except.error e => Except.error e
  | Except.ok i =>
    let columns := zipStar (other_sheet.drop i)
    let cls := classifyColumns columns
    Except.ok
      { ids := cls.1,
        names := (zipStar cls.2.1).map (fun vals => joinSpace (vals.map cellStr)),
        scores := cls.2.2 }

/-- One row of `get_intracursus_data`'s comprehension:
`(id_, f"{first_name} {last_name}", score)`; `none` models the `ValueError`
Python raises when a row has fewer than four cells. -/
def parseRow (row : List Cell) : Option (Cell × String × Cell) :=
  match row with
  | id_ :: first_name :: last_name :: score :: _ =>
    some (id_, cellStr first_name ++ " " ++ cellStr last_name, score)
  | _ => none

/-- `get_intracursus_data(sheet)`: rows from index 6, fixed columns
(identifier, first name, last name, score); an empty data block models the
`TypeError` of `IntracursusData(*zip(*()))`. -/
def get_intracursus_data (sheet : List (List Cell)) : Except PyError IntracursusData :=
  match (sheet.drop 6).mapM parseRow with
  | none => Except.error PyError.valueError
  | some triples =>
    if triples = [] then Except.error PyError.typeError
    else
      Except.ok
        { ids := triples.map (fun t => t.1),
          names := triples.map (fun t => t.2.1),
          scores := triples.map (fun t => t.2.2) }

/-- `dict(zip(ids, scores))[key]` with an integer-keyed dict: the last
binding of a key wins, lookup uses Python `==`. -/
def pyDictGetInt (pairs : List (Int × Cell)) (key : Cell) : Option Cell :=
  (pairs.reverse.find? (fun p => cellEq key (Cell.int p.1))).map (fun p => p.2)

/-- `dict(zip(names, scores))[key]` with string keys (last binding wins). -/
def pyDictGetStr (pairs : List (String × Cell)) (key : String) : Option Cell :=
  (pairs.reverse.find? (fun p => p.1 == key)).map (fun p => p.2)

/-- `names_translation.get(name)` (the keys of `found` are distinct). -/
def assocGet (pairs : List (String × String)) (key : String) : Option String :=
  (pairs.find? (fun p => p.1 == key)).map (fun p => p.2)

/-- `[scores[id_] for id_ in intracursus_data.ids]`: a missing key raises
`KeyError` at the first absent identifier. -/
def lookupAll (d : List (Int × Cell)) : List Cell → Except PyError (List Cell)
  | [] => Except.ok []
  | c :: cs =>
    match pyDictGetInt d c with
    | none => Except.error PyError.keyError
    | some v =>
      match lookupAll d cs with
      | Except.error e => Except.error e
      | Except.ok vs => Except.ok (v :: vs)

/-- `[scores_[names_translation.get(name)] for name in intracursus_data.names]`:
an unmapped canonical name yields the `None` key, i.e. the default `"ABI"`;
a mapped name looks its secondary name up in the score dict. -/
def lookupScores (d : List (String × Cell)) (found : List (String × String)) :
    List String → Except PyError (List Cell)
  | [] => Except.ok []
  | n :: ns =>
    match
      (match assocGet found n with
       | none => Except.ok (Cell.str "ABI")
       | some other =>
         match pyDictGetStr d other with
         | some s => Except.ok s
         | none => Except.error PyError.keyError) with
    | Except.error e => Except.error e
    | Except.ok v =>
      match lookupScores d found ns with
      | Except.error e => Except.error e
      | Except.ok vs => Except.ok (v :: vs)

/-- `update_intracursus_data(intracursus_data, other_data)`: returns the new
scores list (the source assigns it to `intracursus_data.scores`) together
with `to_be_verified`. -/
def update_intracursus_data (idata : IntracursusData) (odata : OtherData) :
    Except PyError (List Cell × List (String × String)) :=
  if odata.ids ≠ [] then
    match lookupAll (odata.ids.zip odata.scores) idata.ids with
    | Except.error e => Except.error e
    | Except.ok scores => Except.ok (scores, [])
  else
    match translate_names odata.names idata.names with
    | Except.error e => Except.error e
    | Except.ok (found, tbv) =>
      match lookupScores (odata.names.zip odata.scores) found idata.names with
      | Except.error e => Except.error e
      | Except.ok scores => Except.ok (scores, tbv)

/-- `f"{first_name} {last_name}"` for `first_name, last_name = row[1:3]`. -/
def rowName (row : List Cell) : String :=
  cellStr (row.getD 1 c0) ++ " " ++ cellStr (row.getD 2 c0)

/-- `if isinstance(score, str) and score.startswith("#"): score = "ABI"`. -/
def newScore (score : Cell) : Cell :=
  if cellStartsHash score then Cell.str "ABI" else score

/-- The guarded score assignment of `fill_scores`: write the (normalized)
score into cell 3 unless cell 0 equals `""` and the score is `"ABI"`. -/
def writeScore (row : List Cell) (score : Cell) : List Cell :=
  if !(cellEq (row.getD 0 c0) (Cell.str "") && cellEq (newScore score) (Cell.str "ABI")) then
    row.set 3 (newScore score)
  else row

/-- The body of the merge loop of `fill_scores` for one row: the guarded
score assignment, then the appended review marker when the row's name is in
`to_be_verified`.  (Rows reaching this loop always have at least four cells,
so the total `getD`/`set` indexing is exact.) -/
def updateRow (row : List Cell) (score : Cell) (tbv : List (String × String)) :
    List Cell :=
  match assocGet tbv (rowName (writeScore row score)) with
  | some v => writeScore row score ++ [Cell.str (v ++ " ?")]
  | none => writeScore row score

/-- The merge loop of `fill_scores` over the data rows (row `6 + k` is
paired with score `k`). -/
def fillRows (rows : List (List Cell)) (scores : List Cell)
    (tbv : List (String × String)) : List (List Cell) :=
  match rows, scores with
  | rows, [] => rows
  | [], _ => []
  | r :: rs, s :: ss => updateRow r s tbv :: fillRows rs ss tbv

/-- `fill_scores(intracursus_sheet, other_sheet)`: extract both datasets,
merge, and return the updated canonical sheet. -/
def fill_scores (intracursus_sheet other_sheet : List (List Cell)) :
    Except PyError (List (List Cell)) :=
  match get_intracursus_data intracursus_sheet with
  | Except.error e => Except.error e
  | Except.ok idata =>
    match get_other_data other_sheet with
    | Except.error e => Except.error e
    | Except.ok odata =>
      match update_intracursus_data idata odata with
      | Except.error e => Except.error e
      | Except.ok (scores, tbv) =>
        Except.ok
          (intracursus_sheet.take 6 ++ fillRows (intracursus_sheet.drop 6) scores tbv)

/-!  Lemmas about the character maps and whitespace splitting. -/

theorem stringMk_data (s : String) : String.mk s.data = s := rfl

theorem mapFixed {α : Type} (f : α → α) :
    ∀ xs : List α, (∀ c ∈ xs, f c = c) → xs.map f = xs
  | [], _ => rfl
  | x :: xs, h => by
    simp only [List.map_cons]
    rw [h x (by simp), mapFixed f xs (fun c hc => h c (by simp [hc]))]

theorem gChar_idem (c : Char) : gChar (gChar c) = gChar c := by
  have hCF : ∀ p ∈ CASEFOLD_TABLE, gChar (gChar p.1) = gChar p.1 := by decide
  have hTR2 : ∀ p ∈ CONVERSION_TABLE, gChar p.2 = p.2 := by decide
  cases hc : CASEFOLD_TABLE.find? (fun p => p.1 == c) with
  | some p =>
    have hmem := List.mem_of_find?_eq_some hc
    have hp : p.1 = c := by simpa using List.find?_some hc
    rw [← hp]
    exact hCF p hmem
  | none =>
    have hcf : pyCasefold c = c := by simp [pyCasefold, hc]
    cases ht : CONVERSION_TABLE.find? (fun p => p.1 == c) with
    | some q =>
      have hmem := List.mem_of_find?_eq_some ht
      have h1 : gChar c = q.2 := by simp [gChar, hcf, translateChar, ht]
      rw [h1]
      exact hTR2 q hmem
    | none =>
      have h1 : gChar c = c := by simp [gChar, hcf, translateChar, ht]
      rw [h1, h1]

theorem splitWsAux_nil (acc : List Char) :
    splitWsAux [] acc = if acc = [] then [] else [String.mk acc] := rfl

theorem splitWsAux_cons (c : Char) (rest acc : List Char) :
    splitWsAux (c :: rest) acc =
      if c.isWhitespace = true then
        if acc = [] then splitWsAux rest [] else String.mk acc :: splitWsAux rest []
      else splitWsAux rest (acc ++ [c]) := rfl

theorem splitWsAux_tokens (cs : List Char) :
    ∀ acc : List Char, (∀ c ∈ acc, c.isWhitespace = false) →
      ∀ t ∈ splitWsAux cs acc,
        t.data ≠ [] ∧ ∀ c ∈ t.data, c ∈ acc ++ cs ∧ c.isWhitespace = false := by
  induction cs with
  | nil =>
    intro acc hacc t ht
    rw [splitWsAux_nil] at ht
    by_cases h : acc = []
    · simp [h] at ht
    · rw [if_neg h] at ht
      rcases List.mem_singleton.mp ht with rfl
      exact ⟨by simpa using h, fun c hc => ⟨by simp [hc], hacc c hc⟩⟩
  | cons c rest ih =>
    intro acc hacc t ht
    rw [splitWsAux_cons] at ht
    by_cases hw : c.isWhitespace = true
    · rw [if_pos hw] at ht
      by_cases ha : acc = []
      · rw [if_pos ha] at ht
        have h := ih [] (by simp) t ht
        refine ⟨h.1, fun d hd => ⟨?_, (h.2 d hd).2⟩⟩
        have hd' : d ∈ rest := by simpa using (h.2 d hd).1
        simp [hd']
      · rw [if_neg ha] at ht
        rcases List.mem_cons.mp ht with rfl | ht'
        · exact ⟨by simpa using ha, fun d hd => ⟨by simp [hd], hacc d hd⟩⟩
        · have h := ih [] (by simp) t ht'
          refine ⟨h.1, fun d hd => ⟨?_, (h.2 d hd).2⟩⟩
          have hd' : d ∈ rest := by simpa using (h.2 d hd).1
          simp [hd']
    · rw [if_neg hw] at ht
      have h := ih (acc ++ [c])
        (by
          intro d hd
          rcases List.mem_append.mp hd with hd' | hd'
          · exact hacc d hd'
          · rcases List.mem_singleton.mp hd' with rfl
            simpa using hw)
        t ht
      refine ⟨h.1, fun d hd => ⟨?_, (h.2 d hd).2⟩⟩
      have := (h.2 d hd).1
      simp only [List.mem_append, List.mem_singleton, List.mem_cons] at this ⊢
      tauto

theorem splitWsAux_final (w : List Char) :
    ∀ acc : List Char, (∀ c ∈ w, c.isWhitespace = false) → acc ++ w ≠ [] →
      splitWsAux w acc = [String.mk (acc ++ w)] := by
  induction w with
  | nil =>
    intro acc _ hne
    rw [splitWsAux_nil, if_neg (by simpa using hne)]
    simp
  | cons c w' ih =>
    intro acc hw hne
    rw [splitWsAux_cons, if_neg (by simp [hw c (by simp)])]
    rw [ih (acc ++ [c]) (fun d hd => hw d (by simp [hd])) (by simp)]
    simp

theorem splitWsAux_word_space (w : List Char) :
    ∀ (acc rest : List Char), (∀ c ∈ w, c.isWhitespace = false) → acc ++ w ≠ [] →
      splitWsAux (w ++ ' ' :: rest) acc = String.mk (acc ++ w) :: splitWsAux rest [] := by
  induction w with
  | nil =>
    intro acc rest _ hne
    simp only [List.nil_append]
    rw [splitWsAux_cons, if_pos (by decide), if_neg (by simpa using hne)]
    simp
  | cons c w' ih =>
    intro acc rest hw hne
    simp only [List.cons_append]
    rw [splitWsAux_cons, if_neg (by simp [hw c (by simp)])]
    rw [ih (acc ++ [c]) rest (fun d hd => hw d (by simp [hd])) (by simp)]
    simp

theorem mem_joinWords (l : List String) :
    ∀ c ∈ joinWords l, c = ' ' ∨ ∃ t ∈ l, c ∈ t.data := by
  induction l with
  | nil => simp [joinWords]
  | cons t rest ih =>
    cases rest with
    | nil =>
      intro c hc
      exact Or.inr ⟨t, by simp, by simpa [joinWords] using hc⟩
    | cons t' rest' =>
      intro c hc
      unfold joinWords at hc
      rcases List.mem_append.mp hc with h | h
      · exact Or.inr ⟨t, by simp, h⟩
      · rcases List.mem_cons.mp h with rfl | h'
        · exact Or.inl rfl
        · rcases ih c h' with h'' | ⟨u, hu, hcu⟩
          · exact Or.inl h''
          · exact Or.inr ⟨u, by simp [hu], hcu⟩

theorem splitWs_joinWords (l : List String)
    (h : ∀ t ∈ l, t.data ≠ [] ∧ ∀ c ∈ t.data, c.isWhitespace = false) :
    splitWs (joinWords l) = l := by
  induction l with
  | nil => rfl
  | cons t rest ih =>
    cases rest with
    | nil =>
      have ht := h t (by simp)
      show splitWsAux t.data [] = [t]
      rw [splitWsAux_final t.data [] ht.2 (by simpa using ht.1)]
      simp
    | cons t' rest' =>
      have ht := h t (by simp)
      show splitWsAux (t.data ++ ' ' :: joinWords (t' :: rest')) [] = t :: t' :: rest'
      rw [splitWsAux_word_space t.data [] _ ht.2 (by simpa using ht.1)]
      rw [List.nil_append, stringMk_data]
      rw [show splitWsAux (joinWords (t' :: rest')) [] = splitWs (joinWords (t' :: rest')) from rfl]
      rw [ih (fun u hu => h u (by simp [hu]))]

theorem norm_tokens_props (name : String) :
    ∀ t ∈ normTokens name, t.data ≠ [] ∧ ∀ c ∈ t.data, gChar c = c ∧ c.isWhitespace = false := by
  intro t ht
  have h := splitWsAux_tokens (name.data.map gChar) [] (by simp) t ht
  refine ⟨h.1, fun c hc => ?_⟩
  have hc' := h.2 c hc
  have hmem : c ∈ name.data.map gChar := by simpa using hc'.1
  rcases List.mem_map.mp hmem with ⟨c₀, _, rfl⟩
  exact ⟨gChar_idem c₀, hc'.2⟩

/-- C8.  Name normalization is idempotent: for every name, normalizing the
whitespace-joined tokens of its normalized token set yields the same token
set, and `norm "Éric Dupont-Martin" = norm "eric dupont martin"`. -/
theorem C8_norm_idempotent :
    (∀ (name : String) (l : List String),
        l.toFinset = norm name → norm (joinSpace l) = norm name) ∧
      norm "Éric Dupont-Martin" = norm "eric dupont martin" := by
  constructor
  · intro name l hl
    have hmem : ∀ t ∈ l, t ∈ normTokens name := by
      intro t ht
      have h1 : t ∈ l.toFinset := List.mem_toFinset.mpr ht
      rw [hl] at h1
      exact List.mem_toFinset.mp h1
    have hfix : (joinWords l).map gChar = joinWords l := by
      apply mapFixed
      intro c hc
      rcases mem_joinWords l c hc with rfl | ⟨t, ht, hct⟩
      · decide
      · exact ((norm_tokens_props name t (hmem t ht)).2 c hct).1
    have hsplit : splitWs (joinWords l) = l :=
      splitWs_joinWords l (fun t ht =>
        ⟨(norm_tokens_props name t (hmem t ht)).1,
         fun c hc => ((norm_tokens_props name t (hmem t ht)).2 c hc).2⟩)
    calc norm (joinSpace l)
        = (splitWs ((joinWords l).map gChar)).toFinset := rfl
      _ = (splitWs (joinWords l)).toFinset := by rw [hfix]
      _ = l.toFinset := by rw [hsplit]
      _ = norm name := hl
  · decide

/-- Witness for C8 at a concrete token list. -/
theorem C8_norm_idempotent_witness :
    (["a", "b"] : List String).toFinset = norm "a b" ∧
      norm (joinSpace ["a", "b"]) = norm "a b" :=
  ⟨by decide, C8_norm_idempotent.1 "a b" ["a", "b"] (by decide)⟩

/-!  Structure lemmas about the matching passes. -/

theorem passInner_nil (pred : String → String → Bool) (isPart : Bool) (o : String)
    (st : PassState) : passInner pred isPart o [] st = Except.ok st := rfl

theorem passInner_cons (pred : String → String → Bool) (isPart : Bool) (o intra : String)
    (rest : List String) (st : PassState) :
    passInner pred isPart o (intra :: rest) st =
      if pred o intra then
        if st.1.any (fun p => p.1 == intra) then Except.error PyError.assertionError
        else
          passInner pred isPart o rest
            (st.1 ++ [(intra, o)], if isPart then st.2 ++ [(intra, o)] else st.2)
      else passInner pred isPart o rest st := rfl

theorem passInner_ok (pred : String → String → Bool) (isPart : Bool) (o : String) :
    ∀ (intras : List String) (st st' : PassState),
      passInner pred isPart o intras st = Except.ok st' →
      (∃ d, st'.1 = st.1 ++ d ∧ ∀ p ∈ d, p.1 ∈ intras) ∧
        ((st.1.map Prod.fst).Nodup → (st'.1.map Prod.fst).Nodup) := by
  intro intras
  induction intras with
  | nil =>
    intro st st' h
    rw [passInner_nil] at h
    injection h with h
    subst h
    exact ⟨⟨[], by simp, by simp⟩, id⟩
  | cons intra rest ih =>
    intro st st' h
    rw [passInner_cons] at h
    by_cases hp : pred o intra = true
    · rw [if_pos hp] at h
      by_cases ha : st.1.any (fun p => p.1 == intra) = true
      · rw [if_pos ha] at h
        cases h
      · rw [if_neg ha] at h
        have h2 := ih _ st' h
        obtain ⟨⟨d, hd, hdmem⟩, hnd⟩ := h2
        refine ⟨⟨(intra, o) :: d, ?_, ?_⟩, ?_⟩
        · rw [hd]
          simp
        · intro p hp'
          rcases List.mem_cons.mp hp' with rfl | hp''
          · simp
          · exact List.mem_cons_of_mem _ (hdmem p hp'')
        · intro hst
          apply hnd
          have hnotin : intra ∉ st.1.map Prod.fst := by
            intro hmem
            rcases List.mem_map.mp hmem with ⟨p, hpmem, hpeq⟩
            have := List.any_eq_false.mp (Bool.not_eq_true _ ▸ ha) p hpmem
            simp [hpeq] at this
          simp only [List.map_append, List.map_cons, List.map_nil]
          rw [List.nodup_append]
          exact ⟨hst, List.nodup_singleton _, by simpa using hnotin⟩
    · rw [if_neg hp] at h
      have h2 := ih st st' h
      obtain ⟨⟨d, hd, hdmem⟩, hnd⟩ := h2
      exact ⟨⟨d, hd, fun p hp' => List.mem_cons_of_mem _ (hdmem p hp')⟩, hnd⟩

theorem passInner_error (pred : String → String → Bool) (isPart : Bool) (o : String) :
    ∀ (intras : List String) (st : PassState) (e : PyError),
      passInner pred isPart o intras st = Except.error e → e = PyError.assertionError := by
  intro intras
  induction intras with
  | nil =>
    intro st e h
    rw [passInner_nil] at h
    cases h
  | cons intra rest ih =>
    intro st e h
    rw [passInner_cons] at h
    by_cases hp : pred o intra = true
    · rw [if_pos hp] at h
      by_cases ha : st.1.any (fun p => p.1 == intra) = true
      · rw [if_pos ha] at h
        injection h with h
        exact h.symm
      · rw [if_neg ha] at h
        exact ih _ _ h
    · rw [if_neg hp] at h
      exact ih _ _ h

theorem passOuter_nil (pred : String → String → Bool) (isPart : Bool)
    (intras : List String) (st : PassState) :
    passOuter pred isPart [] intras st = Except.ok st := rfl

theorem passOuter_cons (pred : String → String → Bool) (isPart : Bool) (o : String)
    (os intras : List String) (st : PassState) :
    passOuter pred isPart (o :: os) intras st =
      match passInner pred isPart o intras st with
      | Except.error e => Except.error e
      | Except.ok st' => passOuter pred isPart os intras st' := rfl

theorem passOuter_ok (pred : String → String → Bool) (isPart : Bool) :
    ∀ (others intras : List String) (st st' : PassState),
      passOuter pred isPart others intras st = Except.ok st' →
      (∃ d, st'.1 = st.1 ++ d ∧ ∀ p ∈ d, p.1 ∈ intras) ∧
        ((st.1.map Prod.fst).Nodup → (st'.1.map Prod.fst).Nodup) := by
  intro others
  induction others with
  | nil =>
    intro intras st st' h
    rw [passOuter_nil] at h
    injection h with h
    subst h
    exact ⟨⟨[], by simp, by simp⟩, id⟩
  | cons o os ih =>
    intro intras st st' h
    rw [passOuter_cons] at h
    cases heq : passInner pred isPart o intras st with
    | error e => rw [heq] at h; cases h
    | ok st1 =>
      rw [heq] at h
      obtain ⟨⟨d1, hd1, hd1mem⟩, hnd1⟩ := passInner_ok pred isPart o intras st st1 heq
      obtain ⟨⟨d2, hd2, hd2mem⟩, hnd2⟩ := ih intras st1 st' h
      refine ⟨⟨d1 ++ d2, ?_, ?_⟩, fun hst => hnd2 (hnd1 hst)⟩
      · rw [hd2, hd1, List.append_assoc]
      · intro p hp
        rcases List.mem_append.mp hp with hp' | hp'
        · exact hd1mem p hp'
        · exact hd2mem p hp'

theorem passOuter_error (pred : String → String → Bool) (isPart : Bool) :
    ∀ (others intras : List String) (st : PassState) (e : PyError),
      passOuter pred isPart others intras st = Except.error e →
      e = PyError.assertionError := by
  intro others
  induction others with
  | nil =>
    intro intras st e h
    rw [passOuter_nil] at h
    cases h
  | cons o os ih =>
    intro intras st e h
    rw [passOuter_cons] at h
    cases heq : passInner pred isPart o intras st with
    | error e' =>
      rw [heq] at h
      injection h with h
      subst h
      exact passInner_error pred isPart o intras st e' heq
    | ok st1 =>
      rw [heq] at h
      exact ih intras st1 e h

theorem remOthers_subset_values (f1 f2 : List (String × String)) (l : List String)
    (hsub : ∀ p ∈ f1, p ∈ f2) :
    remOthers f2 (remOthers f1 l) = remOthers f2 l := by
  unfold remOthers
  rw [List.filter_filter]
  apply List.filter_congr
  intro o _
  by_cases h2 : f2.any (fun p => p.2 == o) = true
  · simp [h2]
  · have h1 : f1.any (fun p => p.2 == o) = false := by
      rw [List.any_eq_false]
      intro p hp
      exact List.any_eq_false.mp (Bool.not_eq_true _ ▸ h2) p (hsub p hp)
    simp [h1, h2]

theorem runPasses_ok (others intras : List String) (found tbv : List (String × String))
    (rem : List String)
    (h : runPasses others intras = Except.ok ((found, tbv), rem)) :
    (found.map Prod.fst).Nodup ∧ (∀ p ∈ found, p.1 ∈ intras) ∧
      rem = remOthers found others := by
  unfold runPasses at h
  split at h
  · cases h
  · rename_i st1 h1
    split at h
    · cases h
    · rename_i st2 h2
      split at h
      · cases h
      · rename_i st3 h3
        injection h with h
        obtain ⟨⟨d1, hd1, hd1mem⟩, hnd1⟩ := passOuter_ok match' false others intras _ st1 h1
        obtain ⟨⟨d2, hd2, hd2mem⟩, hnd2⟩ := passOuter_ok contain false _ _ st1 st2 h2
        obtain ⟨⟨d3, hd3, hd3mem⟩, hnd3⟩ := passOuter_ok partialMatch true _ _ st2 st3 h3
        have hst3 : st3 = (found, tbv) := congrArg Prod.fst h
        have hrem : rem = remOthers st3.1 (remOthers st2.1 (remOthers st1.1 others)) :=
          (congrArg Prod.snd h).symm
        have hsub12 : ∀ p ∈ st1.1, p ∈ st2.1 := by
          intro p hp; rw [hd2]; exact List.mem_append_left _ hp
        have hsub23 : ∀ p ∈ st2.1, p ∈ st3.1 := by
          intro p hp; rw [hd3]; exact List.mem_append_left _ hp
        have hsub13 : ∀ p ∈ st1.1, p ∈ st3.1 := fun p hp => hsub23 p (hsub12 p hp)
        have hfound : st3.1 = found := by rw [hst3]
        refine ⟨?_, ?_, ?_⟩
        · rw [← hfound]
          exact hnd3 (hnd2 (hnd1 (by simp)))
        · intro p hp
          rw [← hfound] at hp
          rw [hd3, hd2, hd1] at hp
          simp only [List.nil_append, List.mem_append] at hp
          rcases hp with (hp | hp) | hp
          · exact hd1mem p hp
          · have := hd2mem p hp
            unfold remIntras at this
            exact (List.mem_filter.mp this).1
          · have := hd3mem p hp
            unfold remIntras at this
            exact (List.mem_filter.mp (List.mem_filter.mp this).1).1
        · rw [hfound] at hsub23 hsub13
          rw [hrem, hfound]
          rw [remOthers_subset_values st2.1 found _ hsub23,
            remOthers_subset_values st1.1 found _ hsub13]

theorem runPasses_error (others intras : List String) (e : PyError)
    (h : runPasses others intras = Except.error e) : e = PyError.assertionError := by
  unfold runPasses at h
  split at h
  · rename_i e' h1
    injection h with h
    subst h
    exact passOuter_error match' false others intras _ e' h1
  · rename_i st1 h1
    split at h
    · rename_i e' h2
      injection h with h
      subst h
      exact passOuter_error contain false _ _ st1 e' h2
    · rename_i st2 h2
      split at h
      · rename_i e' h3
        injection h with h
        subst h
        exact passOuter_error partialMatch true _ _ st2 e' h3
      · cases h

theorem resolve_error (others intras : List String) (e : PyError)
    (h : resolve others intras = Except.error e) :
    e = PyError.assertionError ∨ ∃ n, e = PyError.unknownName n := by
  unfold resolve at h
  split at h
  · rename_i e' h1
    injection h with h
    subst h
    exact Or.inl (runPasses_error others intras e' h1)
  · rename_i st rem h1
    split at h
    · rename_i n tail
      injection h with h
      exact Or.inr ⟨n, h.symm⟩
    · cases h

theorem length_le_dedup_length (keys intras : List String) (hnd : keys.Nodup)
    (hsub : ∀ k ∈ keys, k ∈ intras) : keys.length ≤ intras.dedup.length := by
  have h1 : keys.toFinset.card = keys.length := List.toFinset_card_of_nodup hnd
  have h2 : keys.toFinset ⊆ intras.toFinset := by
    intro x hx
    exact List.mem_toFinset.mpr (hsub x (List.mem_toFinset.mp hx))
  calc keys.length = keys.toFinset.card := h1.symm
    _ ≤ intras.toFinset.card := Finset.card_le_card h2
    _ = intras.dedup.length := List.card_toFinset intras

/-- C2 (counterexample).  At secondary names `["jean dupont"]` and canonical
names `["jean dupont", "dupont jean"]` (distinct strings with equal
normalized token sets), `translate_names` returns normally with a mapping
that sends two canonical names to the same secondary name and whose size
exceeds the smaller of the two name-set sizes. -/
theorem C2_counterexample :
    ∃ found tbv,
      translate_names ["jean dupont"] ["jean dupont", "dupont jean"]
          = Except.ok (found, tbv) ∧
        ¬ ((found.map Prod.snd).Nodup ∧
            found.length ≤
              min (["jean dupont"] : List String).dedup.length
                (["jean dupont", "dupont jean"] : List String).dedup.length) := by
  refine ⟨[("jean dupont", "jean dupont"), ("dupont jean", "jean dupont")], [], by decide,
    by decide⟩

/-- C2 (amended).  For every run of `translate_names` that returns normally,
the mapping never maps a canonical name twice (its keys are distinct) and
its size never exceeds the number of distinct canonical names; injectivity
in the secondary direction and the bound by the smaller name-set size fail
(see the counterexample). -/
theorem C2_translate_names_mapping (others intras : List String)
    (found tbv : List (String × String))
    (h : translate_names others intras = Except.ok (found, tbv)) :
    (found.map Prod.fst).Nodup ∧ found.length ≤ intras.dedup.length := by
  unfold translate_names at h
  split at h
  · cases h
  · unfold resolve at h
    split at h
    · cases h
    · rename_i st rem h1
      split at h
      · cases h
      · injection h with h
        subst h
        obtain ⟨hnd, hsub, _⟩ := runPasses_ok others.dedup intras.dedup found tbv [] h1
        refine ⟨hnd, ?_⟩
        have hle : (found.map Prod.fst).length ≤ intras.dedup.dedup.length :=
          length_le_dedup_length _ _ hnd (by
            intro k hk
            rcases List.mem_map.mp hk with ⟨p, hp, rfl⟩
            exact hsub p hp)
        simpa [List.length_map, List.dedup_idem] using hle

/-- Witness for C2 (amended) at a concrete normal run. -/
theorem C2_translate_names_mapping_witness :
    (([("Jean Dupont", "jean dupont")] : List (String × String)).map Prod.fst).Nodup ∧
      ([("Jean Dupont", "jean dupont")] : List (String × String)).length ≤
        (["Jean Dupont"] : List String).dedup.length :=
  C2_translate_names_mapping ["jean dupont"] ["Jean Dupont"]
    [("Jean Dupont", "jean dupont")] [] (by decide)

/-- C3 (code-bug evaluation).  With secondary names `["Jean Dupont",
"Dupont Jean"]` and the single canonical name `["Jean Dupont"]`, both
secondary names match the same canonical name within the first pass, and
the source's assertion fires: `translate_names` raises `AssertionError`,
contradicting the claim that the assertion can never fire. -/
theorem C3_assertion_fires :
    translate_names ["Jean Dupont", "Dupont Jean"] ["Jean Dupont"]
      = Except.error PyError.assertionError := by decide

/-- C6.  Whenever the secondary name list contains a duplicate,
`translate_names` fails before any matching pass with
`DuplicateNamesError` carrying a duplicated name and its occurrence count;
in particular `["A B", "C D", "A B"]` yields the error citing `"A B"` with
count 2. -/
theorem C6_duplicate_detection :
    (∀ other_names intracursus_names : List String,
        (∃ n ∈ other_names, 1 < other_names.count n) →
          ∃ name, 1 < other_names.count name ∧
            translate_names other_names intracursus_names
              = Except.error (PyError.duplicateNames name (other_names.count name))) ∧
      translate_names ["A B", "C D", "A B"] ["A B", "C D"]
        = Except.error (PyError.duplicateNames "A B" 2) := by
  constructor
  · intro other_names intracursus_names h
    have hs : (other_names.find? (fun n => 1 < other_names.count n)).isSome := by
      rw [List.find?_isSome]
      obtain ⟨n, hn, hc⟩ := h
      exact ⟨n, hn, by simpa using hc⟩
    cases hf : other_names.find? (fun n => 1 < other_names.count n) with
    | none => rw [hf] at hs; cases hs
    | some name =>
      refine ⟨name, by simpa using List.find?_some hf, ?_⟩
      unfold translate_names
      rw [hf]
  · decide

/-- Witness for C6 at the claim's example input. -/
theorem C6_duplicate_detection_witness :
    ∃ name, 1 < (["A B", "C D", "A B"] : List String).count name ∧
      translate_names ["A B", "C D", "A B"] ["A B", "C D"]
        = Except.error
            (PyError.duplicateNames name ((["A B", "C D", "A B"] : List String).count name)) :=
  C6_duplicate_detection.1 ["A B", "C D", "A B"] ["A B", "C D"] ⟨"A B", by decide, by decide⟩

/-- C10.  Duplicate detection compares raw strings only: two secondary
entries that are distinct strings with equal normalized token sets raise no
`DuplicateNamesError`, and both proceed into the matching passes. -/
theorem C10_duplicates_raw_strings_only (a b : String) (intras : List String)
    (hne : a ≠ b) (hnorm : norm a = norm b) :
    translate_names [a, b] intras = resolve [a, b] intras.dedup ∧
      ∀ n c, translate_names [a, b] intras ≠ Except.error (PyError.duplicateNames n c) := by
  have hca : ([a, b] : List String).count a = 1 := by
    simp [List.count_cons, hne]
  have hcb : ([a, b] : List String).count b = 1 := by
    simp [List.count_cons, (Ne.symm hne)]
  have hf : ([a, b] : List String).find? (fun n => 1 < ([a, b] : List String).count n)
      = none := by
    rw [List.find?_eq_none]
    intro x hx
    rcases List.mem_cons.mp hx with rfl | hx'
    · simp [hca]
    · rcases List.mem_singleton.mp hx' with rfl
      simp [hcb]
  have hded : ([a, b] : List String).dedup = [a, b] := by
    rw [List.dedup_cons_of_not_mem (by simp [hne]),
      List.dedup_cons_of_not_mem (by simp), List.dedup_nil]
  constructor
  · unfold translate_names
    rw [hf, hded]
  · intro n c hcon
    unfold translate_names at hcon
    rw [hf] at hcon
    rcases resolve_error _ _ _ hcon with h | ⟨m, h⟩
    · exact PyError.noConfusion h
    · exact PyError.noConfusion h

/-- Witness for C10 at the pair `"Jean Dupont"`, `"Dupont Jean"`. -/
theorem C10_duplicates_raw_strings_only_witness :
    translate_names ["Jean Dupont", "Dupont Jean"] ["Jean Dupont"]
        ≠ Except.error (PyError.duplicateNames "Jean Dupont" 2) :=
  (C10_duplicates_raw_strings_only "Jean Dupont" "Dupont Jean" ["Jean Dupont"]
    (by decide) (by decide)).2 "Jean Dupont" 2

/-- C7.  With duplicate-free secondary names, given the outcome of the three
matching passes: `translate_names` returns normally exactly when no
secondary name is left unmatched (so unmatched canonical names cause no
error); it raises `UnknownNameError` naming a secondary name exactly when
some secondary name matched no canonical name, and the named name is a
secondary name absent from the mapping's values; on a normal return every
secondary name appears as a value of the mapping. -/
theorem C7_unknown_name_iff (others intras : List String) (hnd : others.Nodup)
    (found tbv : List (String × String)) (rem : List String)
    (h : runPasses others intras.dedup = Except.ok ((found, tbv), rem)) :
    (translate_names others intras = Except.ok (found, tbv) ↔ rem = []) ∧
      (∀ n, translate_names others intras = Except.error (PyError.unknownName n) →
        n ∈ others ∧ ∀ p ∈ found, p.2 ≠ n) ∧
      (rem ≠ [] →
        ∃ n, translate_names others intras = Except.error (PyError.unknownName n)) ∧
      (rem = [] → ∀ o ∈ others, ∃ i, (i, o) ∈ found) := by
  have hf : others.find? (fun n => 1 < others.count n) = none := by
    rw [List.find?_eq_none]
    intro x hx
    have hcount := List.nodup_iff_count_le_one.mp hnd x
    simp only [decide_eq_true_eq]
    omega
  have hded : others.dedup = others := List.dedup_eq_self.mpr hnd
  have htr : translate_names others intras = resolve others intras.dedup := by
    unfold translate_names
    rw [hf, hded]
  obtain ⟨hndk, hsub, hrem⟩ := runPasses_ok others intras.dedup found tbv rem h
  cases rem with
  | nil =>
    have hres : resolve others intras.dedup = Except.ok (found, tbv) := by
      unfold resolve
      rw [h]
    refine ⟨?_, ?_, ?_, ?_⟩
    · rw [htr, hres]
      simp
    · intro n hn
      rw [htr, hres] at hn
      cases hn
    · intro hne
      exact absurd rfl hne
    · intro _ o ho
      by_contra hno
      push_neg at hno
      have homem : o ∈ remOthers found others := by
        unfold remOthers
        rw [List.mem_filter]
        refine ⟨ho, ?_⟩
        have hany : found.any (fun p => p.2 == o) = false := by
          rw [List.any_eq_false]
          intro p hp hpo
          have hpe : p.2 = o := by simpa using hpo
          have hpeta : (p.1, o) = p := by rw [← hpe]
          exact hno p.1 (hpeta ▸ hp)
        simp [hany]
      rw [← hrem] at homem
      cases homem
  | cons m tail =>
    have hres : resolve others intras.dedup = Except.error (PyError.unknownName m) := by
      unfold resolve
      rw [h]
    refine ⟨?_, ?_, ?_, ?_⟩
    · rw [htr, hres]
      constructor
      · intro hcon
        exact Except.noConfusion hcon
      · intro hcon
        cases hcon
    · intro n hn
      rw [htr, hres] at hn
      injection hn with hmn
      injection hmn with hmn
      subst hmn
      have hmem : m ∈ remOthers found others := by
        rw [← hrem]
        exact List.mem_cons_self m tail
      unfold remOthers at hmem
      have hmem' := List.mem_filter.mp hmem
      refine ⟨hmem'.1, ?_⟩
      intro p hp hpn
      have hany : found.any (fun p => p.2 == m) = false := by
        have hb := hmem'.2
        rwa [Bool.not_eq_true'] at hb
      have hfalse := List.any_eq_false.mp hany p hp
      simp [hpn] at hfalse
    · intro hne
      exact ⟨m, by rw [htr, hres]⟩
    · intro hnil
      cases hnil

/-- Witness for C7: a secondary name matching no canonical name. -/
theorem C7_unknown_name_iff_witness :
    translate_names ["XYZ Qrs"] ["Abc Def"] = Except.ok ([], []) ↔
      (["XYZ Qrs"] : List String) = [] :=
  (C7_unknown_name_iff ["XYZ Qrs"] ["Abc Def"] (by decide) [] [] ["XYZ Qrs"]
    (by decide)).1

/-- C1 (code-bug evaluation).  A canonical row with identifier cell
`1000001`, existing score `"15"` and no secondary counterpart: the merge
writes `"ABI"` over the existing score (the guard in the source tests cell 0,
the identifier, for emptiness instead of the score cell, so the overwrite is
unconditional on ordinary rows), contradicting the claimed preservation of
non-empty existing scores. -/
theorem C1_existing_score_overwritten :
    fill_scores
        [[Cell.str "h"], [Cell.str "h"], [Cell.str "h"], [Cell.str "h"], [Cell.str "h"],
         [Cell.str "h"],
         [Cell.int 1000001, Cell.str "Sabrina", Cell.str "Alkissi", Cell.str "15"],
         [Cell.int 1000002, Cell.str "Jean", Cell.str "Dupont", Cell.str ""]]
        [[Cell.str "jean dupont", Cell.float 12]]
      = Except.ok
        [[Cell.str "h"], [Cell.str "h"], [Cell.str "h"], [Cell.str "h"], [Cell.str "h"],
         [Cell.str "h"],
         [Cell.int 1000001, Cell.str "Sabrina", Cell.str "Alkissi", Cell.str "ABI"],
         [Cell.int 1000002, Cell.str "Jean", Cell.str "Dupont", Cell.float 12]] := by
  decide

/-!  Lemmas about the identifier-join branch of the merger. -/

theorem lookupAll_nil (d : List (Int × Cell)) : lookupAll d [] = Except.ok [] := rfl

theorem lookupAll_cons (d : List (Int × Cell)) (c : Cell) (cs : List Cell) :
    lookupAll d (c :: cs) =
      match pyDictGetInt d c with
      | none => Except.error PyError.keyError
      | some v =>
        match lookupAll d cs with
        | Except.error e => Except.error e
        | Except.ok vs => Except.ok (v :: vs) := rfl

theorem lookupAll_error (d : List (Int × Cell)) :
    ∀ ids : List Cell, (∃ c ∈ ids, pyDictGetInt d c = none) →
      lookupAll d ids = Except.error PyError.keyError := by
  intro ids
  induction ids with
  | nil =>
    rintro ⟨c, hc, _⟩
    cases hc
  | cons c cs ih =>
    rintro ⟨c', hc', hnone⟩
    rcases List.mem_cons.mp hc' with rfl | hmem
    · rw [lookupAll_cons, hnone]
    · rw [lookupAll_cons]
      cases hv : pyDictGetInt d c with
      | none => rfl
      | some v => rw [ih ⟨c', hmem, hnone⟩]

theorem lookupAll_ok (d : List (Int × Cell)) :
    ∀ (ids : List Cell) (scores : List Cell), lookupAll d ids = Except.ok scores →
      scores.length = ids.length ∧
        ∀ j < ids.length, pyDictGetInt d (ids.getD j c0) = some (scores.getD j c0) := by
  intro ids
  induction ids with
  | nil =>
    intro scores h
    rw [lookupAll_nil] at h
    injection h with h
    subst h
    exact ⟨rfl, fun j hj => absurd hj (by simp)⟩
  | cons c cs ih =>
    intro scores h
    rw [lookupAll_cons] at h
    cases hv : pyDictGetInt d c with
    | none => rw [hv] at h; cases h
    | some v =>
      rw [hv] at h
      cases hr : lookupAll d cs with
      | error e => rw [hr] at h; cases h
      | ok vs =>
        rw [hr] at h
        injection h with h
        subst h
        obtain ⟨hlen, hall⟩ := ih vs hr
        refine ⟨by simp [hlen], ?_⟩
        intro j hj
        cases j with
        | zero => simpa using hv
        | succ j' =>
          simp only [List.getD_cons_succ]
          exact hall j' (by simpa using hj)

/-- C4 (counterexample).  Canonical identifiers `1000001, 1000002`, secondary
roster carrying only identifier `1000001`: the merge does not assign the
default `"ABI"` to the absent identifier `1000002` — it fails with a
`KeyError`, producing no scores at all. -/
theorem C4_counterexample :
    update_intracursus_data
        { ids := [Cell.int 1000001, Cell.int 1000002], names := ["A B", "C D"],
          scores := [Cell.str "", Cell.str ""] }
        { ids := [1000001], names := ["X Y"], scores := [Cell.int 15] }
      = Except.error PyError.keyError ∧
    ¬ ∃ out,
      update_intracursus_data
          { ids := [Cell.int 1000001, Cell.int 1000002], names := ["A B", "C D"],
            scores := [Cell.str "", Cell.str ""] }
          { ids := [1000001], names := ["X Y"], scores := [Cell.int 15] }
        = Except.ok out := by
  refine ⟨by decide, ?_⟩
  rintro ⟨out, hout⟩
  rw [show
    update_intracursus_data
        { ids := [Cell.int 1000001, Cell.int 1000002], names := ["A B", "C D"],
          scores := [Cell.str "", Cell.str ""] }
        { ids := [1000001], names := ["X Y"], scores := [Cell.int 15] }
      = Except.error PyError.keyError from by decide] at hout
  cases hout

/-- C4 (amended).  When the secondary dataset carries identifiers, scores
are joined directly by identifier; a canonical identifier absent from the
secondary roster does not receive the `"ABI"` default — the merge aborts
with a `KeyError`. -/
theorem C4_id_join_no_default (idata : IntracursusData) (odata : OtherData)
    (hids : odata.ids ≠ []) :
    ((∃ c ∈ idata.ids, pyDictGetInt (odata.ids.zip odata.scores) c = none) →
        update_intracursus_data idata odata = Except.error PyError.keyError) ∧
      (∀ scores tbv, update_intracursus_data idata odata = Except.ok (scores, tbv) →
        tbv = [] ∧ scores.length = idata.ids.length ∧
          ∀ j < idata.ids.length,
            pyDictGetInt (odata.ids.zip odata.scores) (idata.ids.getD j c0)
              = some (scores.getD j c0)) := by
  constructor
  · intro hmissing
    unfold update_intracursus_data
    rw [if_pos hids, lookupAll_error _ _ hmissing]
  · intro scores tbv h
    unfold update_intracursus_data at h
    rw [if_pos hids] at h
    cases hl : lookupAll (odata.ids.zip odata.scores) idata.ids with
    | error e => rw [hl] at h; cases h
    | ok vs =>
      rw [hl] at h
      injection h with h
      have hv : vs = scores := congrArg Prod.fst h
      have ht : ([] : List (String × String)) = tbv := congrArg Prod.snd h
      obtain ⟨hlen, hall⟩ := lookupAll_ok _ idata.ids vs hl
      subst hv
      exact ⟨ht.symm, hlen, hall⟩

/-- Witness for C4 (amended): the identifier branch with an absent
identifier at a concrete input. -/
theorem C4_id_join_no_default_witness :
    update_intracursus_data
        { ids := [Cell.int 1000001, Cell.int 1000002], names := ["A B", "C D"],
          scores := [] }
        { ids := [1000001], names := ["A B"], scores := [Cell.int 15] }
      = Except.error PyError.keyError :=
  (C4_id_join_no_default
      { ids := [Cell.int 1000001, Cell.int 1000002], names := ["A B", "C D"], scores := [] }
      { ids := [1000001], names := ["A B"], scores := [Cell.int 15] }
      (by decide)).1
    ⟨Cell.int 1000002, by decide, by decide⟩

/-- C5 (counterexample).  The pair `("ab", "ab")` is matched by Exact
(`match`) but not by Partial (`partial_match`): the only shared token is
shorter than 3 characters, so Exact does not imply Partial. -/
theorem C5_counterexample :
    match' "ab" "ab" = true ∧ partialMatch "ab" "ab" = false := by decide

/-- C5 (amended).  Exact implies Subset for every pair; Exact implies
Partial only when the shared token set has a word of length at least 3;
and the reverse implications fail for some pair (Subset and Partial each
hold on a pair Exact rejects). -/
theorem C5_matcher_escalation :
    (∀ a b : String, match' a b = true → contain a b = true) ∧
      (∀ a b : String, match' a b = true → (∃ w ∈ norm a, 3 ≤ w.length) →
        partialMatch a b = true) ∧
      (contain "Jean Dupont" "Jean" = true ∧ match' "Jean Dupont" "Jean" = false) ∧
      (partialMatch "Jean Dupont" "Marie Dupont" = true ∧
        match' "Jean Dupont" "Marie Dupont" = false) := by
  refine ⟨?_, ?_, by decide, by decide⟩
  · intro a b h
    have he : norm a = norm b := by simpa [match'] using h
    simp [contain, he]
  · intro a b h hw
    obtain ⟨w, hw, hlen⟩ := hw
    have he : norm a = norm b := by simpa [match'] using h
    have hwi : w ∈ (norm a ∩ norm b).filter (fun w => 3 ≤ w.length) := by
      rw [Finset.mem_filter, Finset.mem_inter]
      exact ⟨⟨hw, he ▸ hw⟩, hlen⟩
    have hpos : 0 < ((norm a ∩ norm b).filter (fun w => 3 ≤ w.length)).card :=
      Finset.card_pos.mpr ⟨w, hwi⟩
    simp only [partialMatch]
    simpa using hpos

/-- Witness for C5 (amended): concrete pairs instantiating both
implications. -/
theorem C5_matcher_escalation_witness :
    contain "A B" "B A" = true ∧ partialMatch "Jean Dupont" "Dupont Jean" = true :=
  ⟨C5_matcher_escalation.1 "A B" "B A" (by decide),
   C5_matcher_escalation.2.1 "Jean Dupont" "Dupont Jean" (by decide)
     ⟨"jean", by decide, by decide⟩⟩

/-!  Lemmas about the per-row merge step. -/

theorem getD_set_ne (l : List Cell) (i j : Nat) (x : Cell) (hij : i ≠ j) :
    (l.set i x).getD j c0 = l.getD j c0 := by
  simp [List.getD_eq_getD_get?, List.get?_eq_getElem?, List.getElem?_set_ne hij]

theorem getD_append_length (l : List Cell) (x : Cell) :
    (l ++ [x]).getD l.length c0 = x := by
  rw [List.getD_append_right _ _ _ _ (Nat.le_refl _)]
  simp

theorem writeScore_length (row : List Cell) (score : Cell) :
    (writeScore row score).length = row.length := by
  unfold writeScore
  split
  · exact List.length_set row 3 _
  · rfl

theorem writeScore_getD_ne (row : List Cell) (score : Cell) (j : Nat) (hj : j ≠ 3) :
    (writeScore row score).getD j c0 = row.getD j c0 := by
  unfold writeScore
  split
  · exact getD_set_ne row 3 j _ (fun h => hj h.symm)
  · rfl

theorem rowName_writeScore (row : List Cell) (score : Cell) :
    rowName (writeScore row score) = rowName row := by
  unfold rowName
  rw [writeScore_getD_ne row score 1 (by decide), writeScore_getD_ne row score 2 (by decide)]

/-- C9.  In the per-row merge step: every cell other than the score cell
(index 3) is left unchanged; when the row's name is in the low-confidence
set, exactly one cell is appended, equal to the matched secondary name
followed by `" ?"`; when it is not, nothing is appended. -/
theorem C9_review_marker (row : List Cell) (score : Cell) (tbv : List (String × String)) :
    (∀ j, j ≠ 3 → (updateRow row score tbv).getD j c0 = row.getD j c0 ∨ j ≥ row.length) ∧
      (∀ v, assocGet tbv (rowName row) = some v →
        (updateRow row score tbv).length = row.length + 1 ∧
          (updateRow row score tbv).getD row.length c0 = Cell.str (v ++ " ?")) ∧
      (assocGet tbv (rowName row) = none →
        (updateRow row score tbv).length = row.length) := by
  have hname := rowName_writeScore row score
  have hlen := writeScore_length row score
  refine ⟨?_, ?_, ?_⟩
  · intro j hj
    by_cases hjlen : j < row.length
    · left
      unfold updateRow
      rw [hname]
      cases hget : assocGet tbv (rowName row) with
      | some v =>
        rw [List.getD_append _ _ _ _ (by rw [hlen]; exact hjlen)]
        exact writeScore_getD_ne row score j hj
      | none => exact writeScore_getD_ne row score j hj
    · right
      omega
  · intro v hget
    unfold updateRow
    rw [hname, hget]
    constructor
    · simp [hlen]
    · rw [← hlen, getD_append_length]
  · intro hget
    unfold updateRow
    rw [hname, hget]
    exact hlen

/-- Witness for C9: a concrete flagged row receives exactly the marker
`"alkissi dupont ?"` as an appended fifth cell. -/
theorem C9_review_marker_witness :
    (updateRow [Cell.int 1000001, Cell.str "Sabrina", Cell.str "Alkissi", Cell.str ""]
          (Cell.float 12) [("Sabrina Alkissi", "alkissi dupont")]).length = 4 + 1 ∧
      (updateRow [Cell.int 1000001, Cell.str "Sabrina", Cell.str "Alkissi", Cell.str ""]
            (Cell.float 12) [("Sabrina Alkissi", "alkissi dupont")]).getD 4 c0
        = Cell.str ("alkissi dupont" ++ " ?") :=
  (C9_review_marker [Cell.int 1000001, Cell.str "Sabrina", Cell.str "Alkissi", Cell.str ""]
      (Cell.float 12) [("Sabrina Alkissi", "alkissi dupont")]).2.1
    "alkissi dupont" (by decide)
